import Mathlib

/-!
Shallow embedding of the low-latency audio event pipeline of the
keyboard-sounds repository: the pending-request queue and active-voice
scheduling of `SFMLSoundPlayer` (src/SFMLSoundPlayer.cpp), its decoded-buffer
cache, and the keyboard hook manager `KeyboardHookManager`
(src/KeyboardHookManager.cpp).  Machine words (`WORD` virtual key codes) are
modelled as `Nat`, steady-clock instants as milliseconds in `Nat`, decoded
`sf::SoundBuffer` objects as numeric identifiers, and the fallible
`sf::SoundBuffer::loadFromFile` boundary as an oracle `String → Option Nat`.
-/

namespace KeyboardSounds

/-- Bound `MAX_CONCURRENT_SOUNDS` on simultaneously active voices
(SFMLSoundPlayer.h line 139). -/
def MAX_CONCURRENT_SOUNDS : Nat := 32

/-- Bound `MAX_CACHE_SIZE` on the decoded-buffer cache
(SFMLSoundPlayer.h line 140). -/
def MAX_CACHE_SIZE : Nat := 100

/-- Bound on the pending-request queue: the literal `64` in
`SFMLSoundPlayer::playSound` (SFMLSoundPlayer.cpp line 65). -/
def MAX_PENDING_QUEUE : Nat := 64

/-- A queued playback request, `SFMLSoundPlayer::PendingSound` {path,
highPriority}, extended with a ghost field `seq` that records submission
order; the dynamics never inspect `seq`. -/
structure PendingSound where
  path : String
  highPriority : Bool
  seq : Nat
  deriving DecidableEq

/-- High-priority insertion of `SFMLSoundPlayer::playSound` (lines 52-58):
walk past the existing high-priority prefix and insert there, so the new
request lands after every queued high-priority request and before every
queued low-priority one. -/
def insertHighPriority (p : PendingSound) : List PendingSound → List PendingSound
  | [] => [p]
  | x :: xs => if x.highPriority then x :: insertHighPriority p xs else p :: x :: xs

/-- Test used by the overflow branch: does the queue hold a low-priority
request (the `std::find_if` at lines 67-68 succeeding)? -/
def hasLowPriority (q : List PendingSound) : Bool :=
  q.any fun s => !s.highPriority

/-- Erase the first low-priority request (the `find_if` + `erase` at lines
67-71). -/
def eraseFirstLowPriority : List PendingSound → List PendingSound
  | [] => []
  | x :: xs => if x.highPriority then x :: eraseFirstLowPriority xs else xs

/-- Queue trimming of `playSound` (lines 64-76): once the queue holds more
than 64 requests, erase the first low-priority one; when none exists,
`pop_back` the last element of the deque. -/
def trimPendingQueue (q : List PendingSound) : List PendingSound :=
  if MAX_PENDING_QUEUE < q.length then
    if hasLowPriority q then eraseFirstLowPriority q else q.dropLast
  else q

/-- The whole of `SFMLSoundPlayer::playSound` (lines 38-80) acting on the
pending queue: reject an empty path, insert by priority, trim, return
success. `seq` is the ghost submission stamp. -/
def playSound (q : List PendingSound) (filePath : String) (highPriority : Bool)
    (seq : Nat) : List PendingSound × Bool :=
  if filePath = "" then (q, false)
  else
    let p : PendingSound := ⟨filePath, highPriority, seq⟩
    let q1 := if highPriority then insertHighPriority p q else q ++ [p]
    (trimPendingQueue q1, true)

/-- The decoded-buffer cache `soundBuffers_` (`std::unordered_map<std::string,
std::shared_ptr<sf::SoundBuffer>>`) modelled as an association list whose
iteration order is the list order, with `begin()` at the head; buffers are
numeric identifiers. -/
abbrev SoundCache := List (String × Nat)

/-- Lookup in the cache (`soundBuffers_.find(path)`). -/
def cacheLookup : SoundCache → String → Option Nat
  | [], _ => none
  | e :: c, path => if e.1 = path then some e.2 else cacheLookup c path

/-- Assignment `soundBuffers_[path] = buffer`: update in place when the key
exists, otherwise append. -/
def cacheSet : SoundCache → String → Nat → SoundCache
  | [], path, buf => [(path, buf)]
  | e :: c, path, buf =>
    if e.1 = path then (path, buf) :: c else e :: cacheSet c path buf

/-- Capacity-checked insertion of a freshly decoded buffer (lines 100-107,
119-126 and 216-227): at capacity, erase `begin()` first, then assign. -/
def cacheInsert (c : SoundCache) (path : String) (buf : Nat) : SoundCache :=
  cacheSet (if MAX_CACHE_SIZE ≤ c.length then c.tail else c) path buf

/-- Buffer resolution inside `processSoundQueue` (lines 194-228): a cache hit
returns the cached buffer without decoding; a miss decodes through `load`
(the `sf::SoundBuffer::loadFromFile` boundary) and installs the result on
success.  Returns the updated cache, the buffer when available, and whether a
decode was attempted. -/
def cacheGet (c : SoundCache) (load : String → Option Nat) (path : String) :
    SoundCache × Option Nat × Bool :=
  match cacheLookup c path with
  | some b => (c, some b, false)
  | none =>
    match load path with
    | some b => (cacheInsert c path b, some b, true)
    | none => (c, none, true)

/-- The whole of `SFMLSoundPlayer::preloadSound` (lines 82-146).  The
asynchronous low-priority branch is modelled by its completed effect; its
`std::async` task returns no value to the caller, so the call itself returns
`true` even when the decode later fails, while a failed synchronous
high-priority decode returns `false`.  Result: (cache, returned value,
decode attempted). -/
def preloadSound (c : SoundCache) (load : String → Option Nat) (path : String)
    (highPriority : Bool) : SoundCache × Bool × Bool :=
  if path = "" then (c, false, false)
  else if (cacheLookup c path).isSome then (c, true, false)
  else
    match load path with
    | some b => (cacheInsert c path b, true, true)
    | none => (c, !highPriority, true)

/-- An active voice, `SFMLSoundPlayer::SoundInstance` {sound, expirationTime,
path, highPriority}: the `sf::Sound` handle and the expiration instant are
abstracted away (expiry is decided by the reaper's environment predicate) and
`seq` is the ghost submission stamp of the request that started it. -/
structure SoundInstance where
  path : String
  highPriority : Bool
  seq : Nat
  deriving DecidableEq

/-- Does the active set hold a low-priority voice (the `std::find_if` at
lines 174-175 succeeding)? -/
def hasLowActive (a : List SoundInstance) : Bool :=
  a.any fun s => !s.highPriority

/-- Stop and erase the first low-priority active voice (lines 177-180). -/
def eraseFirstLowActive : List SoundInstance → List SoundInstance
  | [] => []
  | x :: xs => if x.highPriority then x :: eraseFirstLowActive xs else xs

/-- Capacity eviction for a dequeued high-priority request (lines 172-186):
stop and erase the first low-priority voice; when every voice is
high-priority, erase `activeSounds_.begin()`, the oldest voice. -/
def evictForHighPriority (a : List SoundInstance) : List SoundInstance :=
  if hasLowActive a then eraseFirstLowActive a else a.tail

/-- The state of `SFMLSoundPlayer` shared between `playSound` and the worker
thread: the pending deque, the active-voice vector, the buffer cache, and the
ghost submission counter. -/
structure PlayerState where
  pendingSounds : List PendingSound
  activeSounds : List SoundInstance
  soundBuffers : SoundCache
  nextSeq : Nat

/-- The player's state at construction: everything empty. -/
def initPlayer : PlayerState := ⟨[], [], [], 0⟩

/-- One iteration of the worker loop `processSoundQueue` (lines 152-257): pop
the front request if any; at voice capacity a high-priority request first
evicts one voice while a low-priority request is dropped (`continue`);
resolve the buffer through the cache, and on success start the new voice by
appending it to `activeSounds_`.  A failed decode (`continue` at line 212)
starts nothing, but any capacity eviction has already happened. -/
def workerStep (load : String → Option Nat) (s : PlayerState) : PlayerState :=
  match s.pendingSounds with
  | [] => s
  | front :: rest =>
    let active? : Option (List SoundInstance) :=
      if MAX_CONCURRENT_SOUNDS ≤ s.activeSounds.length then
        if front.highPriority then some (evictForHighPriority s.activeSounds)
        else none
      else some s.activeSounds
    match active? with
    | none => { s with pendingSounds := rest }
    | some a =>
      match cacheGet s.soundBuffers load front.path with
      | (c, some _, _) =>
        { s with
          pendingSounds := rest
          soundBuffers := c
          activeSounds := a ++ [⟨front.path, front.highPriority, front.seq⟩] }
      | (c, none, _) =>
        { s with pendingSounds := rest, soundBuffers := c, activeSounds := a }

/-- The periodic reaper `cleanupFinishedSounds` (lines 260-276); whether a
voice has stopped or expired is decided by the environment predicate
`finished`. -/
def cleanupFinishedSounds (finished : SoundInstance → Bool) (s : PlayerState) :
    PlayerState :=
  { s with activeSounds := s.activeSounds.filter fun i => !finished i }

/-- Mirrors `stopAllSounds` (lines 295-311): clear the pending queue, stop and
clear every active voice. -/
def stopAllSounds (s : PlayerState) : PlayerState :=
  { s with pendingSounds := [], activeSounds := [] }

/-- Mirrors `playSound` lifted to the player state, stamping the ghost
sequence number. -/
def playerEnqueue (s : PlayerState) (path : String) (hp : Bool) :
    PlayerState × Bool :=
  let r := playSound s.pendingSounds path hp s.nextSeq
  ({ s with pendingSounds := r.1, nextSeq := s.nextSeq + 1 }, r.2)

/-- The operations that touch the player's shared state: a `playSound` call
from the hook path, one worker-loop iteration (with its decode oracle), one
reaper pass, and `stopAllSounds`. -/
inductive PlayerOp where
  | play (path : String) (hp : Bool)
  | worker (load : String → Option Nat)
  | cleanup (finished : SoundInstance → Bool)
  | stopAll

/-- One operation applied to the player state. -/
def playerStep (s : PlayerState) : PlayerOp → PlayerState
  | .play path hp => (playerEnqueue s path hp).1
  | .worker load => workerStep load s
  | .cleanup finished => cleanupFinishedSounds finished s
  | .stopAll => stopAllSounds s

/-- The player state reached from construction by a sequence of operations. -/
def runPlayer (ops : List PlayerOp) : PlayerState :=
  ops.foldl playerStep initPlayer

/-- The pending queue together with a service log, for ordering properties:
`serviced` records, in service order, each request the worker dequeued paired
with the value of the ghost submission counter at its service instant. -/
structure SchedState where
  queue : List PendingSound
  nextSeq : Nat
  serviced : List (PendingSound × Nat)

/-- Queue-level operations: an enqueue through `playSound` and the worker's
dequeue of the front request (lines 158-164 of `processSoundQueue`). -/
inductive SchedOp where
  | enq (path : String) (hp : Bool)
  | deq

/-- One queue-level operation. -/
def schedStep (s : SchedState) : SchedOp → SchedState
  | .enq path hp =>
    { s with
      queue := (playSound s.queue path hp s.nextSeq).1
      nextSeq := s.nextSeq + 1 }
  | .deq =>
    match s.queue with
    | [] => s
    | f :: rest => { s with queue := rest, serviced := s.serviced ++ [(f, s.nextSeq)] }

/-- The empty initial scheduler state. -/
def initSched : SchedState := ⟨[], 0, []⟩

/-- The scheduler state reached by a sequence of enqueues and dequeues. -/
def runSched (ops : List SchedOp) : SchedState :=
  ops.foldl schedStep initSched

/-- Debounce interval `KEY_PROCESSING_INTERVAL`, 25 milliseconds
(KeyboardHookManager.cpp line 23). -/
def KEY_PROCESSING_INTERVAL : Nat := 25

/-- History bound `KEY_HISTORY_LENGTH` (KeyboardHookManager.cpp line 27). -/
def KEY_HISTORY_LENGTH : Nat := 5

/-- Lookup in an association list, modelling `std::unordered_map::find`. -/
def assocFind {β : Type} : List (Nat × β) → Nat → Option β
  | [], _ => none
  | e :: m, k => if e.1 = k then some e.2 else assocFind m k

/-- Assignment `m[k] = v` on an association list: update in place when the
key exists, otherwise append. -/
def assocSet {β : Type} : List (Nat × β) → Nat → β → List (Nat × β)
  | [], k, v => [(k, v)]
  | e :: m, k, v => if e.1 = k then (k, v) :: m else e :: assocSet m k v

/-- Set insertion, modelling `std::unordered_set::insert` on a set whose
iteration order is modelled as the list order. -/
def setInsert (s : List Nat) (k : Nat) : List Nat :=
  if s.contains k then s else s ++ [k]

/-- Insertion `keyFollowers[previousKey].insert(vkCode)` (line 239). -/
def followersInsert (m : List (Nat × List Nat)) (k v : Nat) :
    List (Nat × List Nat) :=
  match assocFind m k with
  | some s => assocSet m k (setInsert s v)
  | none => assocSet m k (setInsert [] v)

/-- Drop elements from the front until the length bound holds: the
`while (size > bound) pop_front()` loops at lines 92-94 and 248-250. -/
def trimFront (bound : Nat) (l : List Nat) : List Nat :=
  l.drop (l.length - bound)

/-- The state of `KeyboardHookManager` together with the file-static maps of
KeyboardHookManager.cpp: per-key timestamps (`keyTimestamps`), the key-history
ring (`recentKeys`), the follower map (`keyFollowers`), the pressed-keys set,
the key filter, and the latency optimization level. -/
structure HookState where
  keyTimestamps : List (Nat × Nat)
  recentKeys : List Nat
  keyFollowers : List (Nat × List Nat)
  latencyOptimizationLevel : Int
  pressedKeys : List Nat
  keyFilteringEnabled : Bool
  filteredKeys : List Nat
  deriving DecidableEq

/-- The hook manager's state right after construction (lines 30-46): filtering
off, level 2, every container empty. -/
def initHook : HookState := ⟨[], [], [], 2, [], false, []⟩

/-- Mirrors `shouldProcessKey` (lines 203-213). -/
def shouldProcessKey (s : HookState) (vkCode : Nat) : Bool :=
  if !s.keyFilteringEnabled then true
  else !(s.filteredKeys.contains vkCode)

/-- Mirrors `preloadPredictedKeys` (lines 109-143), returning the emitted
preload requests (path, highPriority); `sound k isDown` stands for
`SoundManager::getRandomSoundForKey`.  The loop walks the follower set of
`baseKey`, stops after `latencyOptimizationLevel` candidates, and requests
each candidate's down and up sound, each preload high-priority exactly when
the level is at least 3. -/
def preloadPredictedKeys (level : Int) (followers : List (Nat × List Nat))
    (sound : Nat → Bool → String) (baseKey : Nat) : List (String × Bool) :=
  if level < 1 then []
  else
    match assocFind followers baseKey with
    | none => []
    | some fs =>
      (fs.take level.toNat).flatMap fun nextKey =>
        let hp := decide (3 ≤ level)
        (if sound nextKey true ≠ "" then [(sound nextKey true, hp)] else []) ++
        (if sound nextKey false ≠ "" then [(sound nextKey false, hp)] else [])

/-- Mirrors `setLatencyOptimization` (lines 77-107): clamp to 0-3; level 0
clears the follower map and the history, level 1 trims the history to 3,
level 2 changes nothing, level 3 only re-emits the common-key preloads
(requests, not state). -/
def setLatencyOptimization (s : HookState) (level : Int) : HookState :=
  let l : Int := max 0 (min level 3)
  let s1 := { s with latencyOptimizationLevel := l }
  if l = 0 then { s1 with keyFollowers := [], recentKeys := [] }
  else if l = 1 then { s1 with recentKeys := trimFront 3 s1.recentKeys }
  else s1

/-- Result of processing one key-down: the new state, the preload requests
emitted by the predictive prefetch, and the play request submitted to
`SFMLSoundPlayer::playSound` when the debounce allowed one. -/
structure KeyDownResult where
  state : HookState
  preloads : List (String × Bool)
  play : Option (String × Bool)
  deriving DecidableEq

/-- Mirrors `handleKeyDown` (lines 215-263): decide the debounce from the
key's previous timestamp, always update the timestamp, learn the follower
pair and prefetch when the level allows it, push the key onto the history
ring, and submit the down sound with high priority when not suppressed.
`now` is the steady-clock instant in milliseconds. -/
def handleKeyDown (s : HookState) (sound : Nat → Bool → String)
    (vkCode now : Nat) : KeyDownResult :=
  let shouldPlay :=
    match assocFind s.keyTimestamps vkCode with
    | none => true
    | some t => !decide (now - t < KEY_PROCESSING_INTERVAL)
  let ts1 := assocSet s.keyTimestamps vkCode now
  let learning :=
    if 0 < s.latencyOptimizationLevel ∧ s.recentKeys ≠ [] then
      let previousKey := s.recentKeys.getLastD 0
      let f1 := followersInsert s.keyFollowers previousKey vkCode
      (f1, preloadPredictedKeys s.latencyOptimizationLevel f1 sound vkCode)
    else (s.keyFollowers, [])
  let recent1 :=
    if 0 < s.latencyOptimizationLevel then
      trimFront KEY_HISTORY_LENGTH (s.recentKeys ++ [vkCode])
    else s.recentKeys
  let play :=
    if shouldPlay && !(sound vkCode true == "") then some (sound vkCode true, true)
    else none
  ⟨{ s with keyTimestamps := ts1, keyFollowers := learning.1, recentKeys := recent1 },
    learning.2, play⟩

/-- Mirrors `handleKeyUp` (lines 265-295): suppress the up sound when the key
was released less than 20 milliseconds after its last down; the state is not
changed. -/
def handleKeyUp (s : HookState) (sound : Nat → Bool → String)
    (vkCode now : Nat) : Option (String × Bool) :=
  let shouldPlay :=
    match assocFind s.keyTimestamps vkCode with
    | none => true
    | some t => !decide (now - t < 20)
  if shouldPlay && !(sound vkCode false == "") then some (sound vkCode false, false)
  else none

/-- Windows message constants used by `KeyboardHookProc`. -/
def HC_ACTION : Int := 0

/-- WM_KEYDOWN. -/
def WM_KEYDOWN : Nat := 0x0100

/-- WM_KEYUP. -/
def WM_KEYUP : Nat := 0x0101

/-- WM_SYSKEYDOWN. -/
def WM_SYSKEYDOWN : Nat := 0x0104

/-- WM_SYSKEYUP. -/
def WM_SYSKEYUP : Nat := 0x0105

/-- Result of one hook callback: the new state and the sound requests it
emitted.  The callback always forwards to `CallNextHookEx`, so only state and
requests are observable here. -/
structure HookProcResult where
  state : HookState
  preloads : List (String × Bool)
  play : Option (String × Bool)
  deriving DecidableEq

/-- Mirrors `KeyboardHookProc` (lines 297-352) for the case in which the
singleton instance exists: filtered keys are excluded before any processing,
injected events are ignored, a down of an already-pressed key is treated as
auto-repeat, an accepted down is recorded in the pressed set and handled by
`handleKeyDown`, an accepted up is removed from the pressed set and handled
by `handleKeyUp`.  `injected` is bit 4 of `KBDLLHOOKSTRUCT::flags`. -/
def keyboardHookProc (s : HookState) (sound : Nat → Bool → String)
    (nCode : Int) (wParam : Nat) (vkCode : Nat) (injected : Bool) (now : Nat) :
    HookProcResult :=
  if nCode ≠ HC_ACTION then ⟨s, [], none⟩
  else if !shouldProcessKey s vkCode then ⟨s, [], none⟩
  else if wParam = WM_KEYDOWN ∨ wParam = WM_SYSKEYDOWN then
    if injected then ⟨s, [], none⟩
    else if s.pressedKeys.contains vkCode then ⟨s, [], none⟩
    else
      let s1 := { s with pressedKeys := setInsert s.pressedKeys vkCode }
      let r := handleKeyDown s1 sound vkCode now
      ⟨r.state, r.preloads, r.play⟩
  else if wParam = WM_KEYUP ∨ wParam = WM_SYSKEYUP then
    if injected then ⟨s, [], none⟩
    else
      let s1 := { s with pressedKeys := s.pressedKeys.filter fun k => k != vkCode }
      ⟨s1, [], handleKeyUp s1 sound vkCode now⟩
  else ⟨s, [], none⟩

/-- Mirrors the constructor `KeyboardHookManager::KeyboardHookManager` (lines
30-46) acting on the process-wide singleton pointer `instance_`; instances
are identified by a numeric id.  Returns the new pointer, whether
construction succeeded (the constructor never fails), and whether the
multiple-instances warning was printed. -/
def constructHookManager (instancePtr : Option Nat) (newId : Nat) :
    Option Nat × Bool × Bool :=
  (some newId, true, instancePtr.isSome)

/-! ### Pending-queue lemmas -/

theorem length_insertHighPriority (p : PendingSound) (q : List PendingSound) :
    (insertHighPriority p q).length = q.length + 1 := by
  induction q with
  | nil => rfl
  | cons x xs ih =>
    simp only [insertHighPriority]
    split <;> simp [ih]

theorem length_eraseFirstLowPriority (q : List PendingSound)
    (h : hasLowPriority q = true) :
    (eraseFirstLowPriority q).length + 1 = q.length := by
  induction q with
  | nil => simp [hasLowPriority] at h
  | cons x xs ih =>
    by_cases hx : x.highPriority
    · have hxs : hasLowPriority xs = true := by
        simpa [hasLowPriority, hx] using h
      simp [eraseFirstLowPriority, hx, ih hxs]
    · simp [eraseFirstLowPriority, hx]

theorem filter_high_eraseFirstLowPriority (q : List PendingSound) :
    (eraseFirstLowPriority q).filter (·.highPriority) =
      q.filter (·.highPriority) := by
  induction q with
  | nil => rfl
  | cons x xs ih =>
    by_cases hx : x.highPriority
    · simp [eraseFirstLowPriority, hx, List.filter_cons, ih]
    · simp [eraseFirstLowPriority, hx, List.filter_cons]

theorem eraseFirstLowPriority_sublist (q : List PendingSound) :
    (eraseFirstLowPriority q).Sublist q := by
  induction q with
  | nil => simp [eraseFirstLowPriority]
  | cons x xs ih =>
    simp only [eraseFirstLowPriority]
    split
    · exact ih.cons₂ x
    · exact List.sublist_cons_self x xs

theorem trimPendingQueue_sublist (q : List PendingSound) :
    (trimPendingQueue q).Sublist q := by
  unfold trimPendingQueue
  split
  · split
    · exact eraseFirstLowPriority_sublist q
    · exact List.dropLast_sublist q
  · exact List.Sublist.refl q

theorem length_trimPendingQueue_le (q : List PendingSound)
    (h : q.length ≤ MAX_PENDING_QUEUE + 1) :
    (trimPendingQueue q).length ≤ MAX_PENDING_QUEUE := by
  unfold trimPendingQueue
  split
  · rename_i hlen
    split
    · rename_i hlow
      have := length_eraseFirstLowPriority q hlow
      omega
    · have := List.length_dropLast q
      omega
  · omega

theorem playSound_length_le (q : List PendingSound) (path : String) (hp : Bool)
    (n : Nat) (h : q.length ≤ MAX_PENDING_QUEUE) :
    (playSound q path hp n).1.length ≤ MAX_PENDING_QUEUE := by
  unfold playSound
  split
  · simpa using h
  · simp only
    apply length_trimPendingQueue_le
    split
    · rw [length_insertHighPriority]; omega
    · rw [List.length_append]; simp; omega

theorem schedStep_queue_length_le (s : SchedState) (op : SchedOp)
    (h : s.queue.length ≤ MAX_PENDING_QUEUE) :
    (schedStep s op).queue.length ≤ MAX_PENDING_QUEUE := by
  cases op with
  | enq path hp => exact playSound_length_le s.queue path hp s.nextSeq h
  | deq =>
    cases hq : s.queue with
    | nil => simp [schedStep, hq]
    | cons f rest =>
      simp only [schedStep, hq]
      rw [hq] at h
      simp at h
      simpa using by omega

theorem runSched_queue_length_le (ops : List SchedOp) :
    (runSched ops).queue.length ≤ MAX_PENDING_QUEUE := by
  suffices h : ∀ s : SchedState, s.queue.length ≤ MAX_PENDING_QUEUE →
      (ops.foldl schedStep s).queue.length ≤ MAX_PENDING_QUEUE by
    exact h initSched (by simp [initSched])
  induction ops with
  | nil => intro s hs; exact hs
  | cons op ops ih =>
    intro s hs
    exact ih _ (schedStep_queue_length_le s op hs)

/-- C2: after any sequence of queue operations (in particular any sequence of
`playSound` enqueues) the pending queue holds at most `MAX_PENDING_QUEUE = 64`
entries; `playSound` on a non-empty path inserts and then trims; and whenever
the trimming fires on a queue over the bound that still holds a low-priority
request, the request it evicts is low-priority: exactly one entry disappears
and the high-priority entries are untouched. -/
theorem pendingQueue_bounded_lowEvictedFirst :
    (∀ ops : List SchedOp, (runSched ops).queue.length ≤ MAX_PENDING_QUEUE) ∧
    (∀ (q : List PendingSound) (path : String) (hp : Bool) (n : Nat),
      path ≠ "" →
      (playSound q path hp n).1 =
        trimPendingQueue
          (if hp then insertHighPriority ⟨path, hp, n⟩ q else q ++ [⟨path, hp, n⟩])) ∧
    (∀ q : List PendingSound, MAX_PENDING_QUEUE < q.length →
      hasLowPriority q = true →
      (trimPendingQueue q).length + 1 = q.length ∧
      (trimPendingQueue q).filter (·.highPriority) = q.filter (·.highPriority)) := by
  refine ⟨runSched_queue_length_le, ?_, ?_⟩
  · intro q path hp n hpath
    simp [playSound, hpath]
  · intro q hlen hlow
    have htrim : trimPendingQueue q = eraseFirstLowPriority q := by
      unfold trimPendingQueue
      simp [hlen, hlow]
    rw [htrim]
    exact ⟨length_eraseFirstLowPriority q hlow, filter_high_eraseFirstLowPriority q⟩

/-- C2 witness: a queue of sixty-five requests, one of them low-priority,
drops to sixty-four entries with its high-priority entries untouched. -/
theorem pendingQueue_bounded_lowEvictedFirst_witness :
    (runSched [SchedOp.enq "a" true, SchedOp.enq "b" false]).queue.length ≤
        MAX_PENDING_QUEUE ∧
    (trimPendingQueue
        ((List.range 64).map (fun i : Nat => (⟨toString i, true, i⟩ : PendingSound)) ++
          [(⟨"low", false, 64⟩ : PendingSound)])).length + 1 =
      ((List.range 64).map (fun i : Nat => (⟨toString i, true, i⟩ : PendingSound)) ++
        [(⟨"low", false, 64⟩ : PendingSound)]).length :=
  ⟨pendingQueue_bounded_lowEvictedFirst.1 [SchedOp.enq "a" true, SchedOp.enq "b" false],
    (pendingQueue_bounded_lowEvictedFirst.2.2 _ (by decide) (by decide)).1⟩

/-- The failing input for C3: sixty-five consecutive high-priority enqueues
on the fresh player. -/
def overflowCalls : List SchedOp :=
  (List.range 65).map fun i => SchedOp.enq (toString i) true

set_option maxRecDepth 10000

/-- C3 (code bug): evaluating `playSound` at the failing input.  After
sixty-five high-priority enqueues the overflow branch takes `pop_back`, so
the queue keeps the oldest request "0" at its front and has dropped the
newest request "64" - the comment at SFMLSoundPlayer.cpp line 73 and the
spec both say the oldest should have been evicted. -/
theorem overflow_allHigh_drops_newest :
    ((runSched overflowCalls).queue.map (·.path)).head? = some "0" ∧
    "64" ∉ (runSched overflowCalls).queue.map (·.path) ∧
    (runSched overflowCalls).queue.length = 64 := by decide

/-- C10: `playSound` returns `false` exactly on the empty path; and a `true`
return does not guarantee the sound plays: enqueuing a sixty-fifth
high-priority request onto a queue of sixty-four high-priority requests
returns `true` while the overflow trimming immediately drops that very
request. -/
theorem playSound_true_iff_nonempty :
    (∀ (q : List PendingSound) (path : String) (hp : Bool) (n : Nat),
      (playSound q path hp n).2 = !(path == "")) ∧
    (playSound ((List.range 64).map fun i : Nat =>
        (⟨toString i, true, i⟩ : PendingSound)) "extra" true 64).2 = true ∧
    (⟨"extra", true, 64⟩ : PendingSound) ∉
      (playSound ((List.range 64).map fun i : Nat =>
        (⟨toString i, true, i⟩ : PendingSound)) "extra" true 64).1 := by
  refine ⟨?_, by decide, by decide⟩
  intro q path hp n
  by_cases h : path = "" <;> simp [playSound, h]

/-! ### Queue ordering: priority partition and FIFO -/

/-- Ordering maintained along the pending queue, front to back: no element
precedes a high-priority one unless it is itself high-priority, and within a
priority class the ghost submission stamps increase towards the back. -/
def reqOrder (a b : PendingSound) : Prop :=
  (b.highPriority = true → a.highPriority = true) ∧
  (a.highPriority = b.highPriority → a.seq < b.seq)

/-- The pending queue is a stable priority partition: high-priority requests
first, each class in FIFO submission order. -/
def QueueOrdered (q : List PendingSound) : Prop := q.Pairwise reqOrder

theorem mem_insertHighPriority {a p : PendingSound} {q : List PendingSound} :
    a ∈ insertHighPriority p q ↔ a = p ∨ a ∈ q := by
  induction q with
  | nil => simp [insertHighPriority]
  | cons x xs ih =>
    simp only [insertHighPriority]
    split
    · simp only [List.mem_cons, ih]
      tauto
    · simp only [List.mem_cons]

theorem lowPriority_tail {x : PendingSound} {xs : List PendingSound}
    (hord : (x :: xs).Pairwise reqOrder) (hx : x.highPriority = false) :
    ∀ b ∈ xs, b.highPriority = false := by
  intro b hb
  cases hbh : b.highPriority
  · rfl
  · have hxh := ((List.pairwise_cons.mp hord).1 b hb).1 hbh
    rw [hx] at hxh
    exact absurd hxh (by decide)

theorem insertHighPriority_pairwise {p : PendingSound} {q : List PendingSound}
    (hord : QueueOrdered q) (hp : p.highPriority = true)
    (hseq : ∀ r ∈ q, r.seq < p.seq) :
    QueueOrdered (insertHighPriority p q) := by
  induction q with
  | nil => simp [insertHighPriority, QueueOrdered]
  | cons x xs ih =>
    rcases List.pairwise_cons.mp hord with ⟨hx, hxs⟩
    simp only [insertHighPriority]
    split
    · rename_i hxh
      rw [QueueOrdered, List.pairwise_cons]
      refine ⟨?_, ih hxs fun r hr => hseq r (List.mem_cons_of_mem x hr)⟩
      intro b hb
      rcases mem_insertHighPriority.mp hb with rfl | hbq
      · exact ⟨fun _ => hxh, fun _ => hseq x (List.mem_cons_self x xs)⟩
      · exact hx b hbq
    · rename_i hxh
      rw [QueueOrdered, List.pairwise_cons]
      refine ⟨?_, hord⟩
      intro b hb
      have hblow : b.highPriority = false := by
        rcases List.mem_cons.mp hb with rfl | hbxs
        · simpa using hxh
        · exact lowPriority_tail hord (by simpa using hxh) b hbxs
      refine ⟨fun _ => hp, fun hcl => ?_⟩
      rw [hp, hblow] at hcl
      exact absurd hcl (by decide)

theorem append_low_pairwise {p : PendingSound} {q : List PendingSound}
    (hord : QueueOrdered q) (hp : p.highPriority = false)
    (hseq : ∀ r ∈ q, r.seq < p.seq) :
    QueueOrdered (q ++ [p]) := by
  rw [QueueOrdered, List.pairwise_append]
  refine ⟨hord, by simp [reqOrder], ?_⟩
  intro a ha b hb
  rw [List.mem_singleton] at hb
  subst hb
  refine ⟨fun hbh => ?_, fun _ => hseq a ha⟩
  rw [hp] at hbh
  exact absurd hbh (by decide)

theorem playSound_queue_pairwise {q : List PendingSound} {path : String}
    {hp : Bool} {n : Nat} (hord : QueueOrdered q)
    (hseq : ∀ r ∈ q, r.seq < n) :
    QueueOrdered (playSound q path hp n).1 := by
  unfold playSound
  split
  · exact hord
  · simp only
    refine List.Pairwise.sublist (trimPendingQueue_sublist _) ?_
    split
    · rename_i hhp
      exact insertHighPriority_pairwise hord (by simp [hhp]) hseq
    · rename_i hlow
      exact append_low_pairwise hord (by simpa using hlow) hseq

theorem mem_playSound_queue {r : PendingSound} {q : List PendingSound}
    {path : String} {hp : Bool} {n : Nat}
    (hr : r ∈ (playSound q path hp n).1) :
    r ∈ q ∨ r = (⟨path, hp, n⟩ : PendingSound) := by
  unfold playSound at hr
  split at hr
  · exact Or.inl hr
  · simp only at hr
    have hmem := (trimPendingQueue_sublist _).subset hr
    split at hmem
    · rcases mem_insertHighPriority.mp hmem with rfl | hmq
      · exact Or.inr rfl
      · exact Or.inl hmq
    · rcases List.mem_append.mp hmem with hmq | hmp
      · exact Or.inl hmq
      · exact Or.inr (List.mem_singleton.mp hmp)

/-- Invariant of the scheduler trace: the queue is a stable priority
partition ordered FIFO within each class, every stamp is below the counter,
the service log is FIFO within each class, and a low-priority request already
serviced was serviced no later than the submission of any high-priority
request still pending or serviced after it. -/
structure SchedInv (s : SchedState) : Prop where
  queue_ordered : QueueOrdered s.queue
  queue_seq_lt : ∀ r ∈ s.queue, r.seq < s.nextSeq
  svc_seq_lt : ∀ e ∈ s.serviced, (e : PendingSound × Nat).1.seq < s.nextSeq
  svc_at_le : ∀ e ∈ s.serviced, (e : PendingSound × Nat).2 ≤ s.nextSeq
  svc_fifo : s.serviced.Pairwise fun a b =>
    a.1.highPriority = b.1.highPriority → a.1.seq < b.1.seq
  svc_cross : s.serviced.Pairwise fun a b =>
    a.1.highPriority = false → b.1.highPriority = true → a.2 ≤ b.1.seq
  svc_queue_fifo : ∀ e ∈ s.serviced, ∀ r ∈ s.queue,
    (e : PendingSound × Nat).1.highPriority = r.highPriority → e.1.seq < r.seq
  svc_queue_cross : ∀ e ∈ s.serviced, ∀ r ∈ s.queue,
    (e : PendingSound × Nat).1.highPriority = false → r.highPriority = true →
      e.2 ≤ r.seq

theorem schedStep_inv {s : SchedState} (h : SchedInv s) (op : SchedOp) :
    SchedInv (schedStep s op) := by
  cases op with
  | enq path hp =>
    refine
      { queue_ordered := playSound_queue_pairwise h.queue_ordered h.queue_seq_lt
        queue_seq_lt := ?_
        svc_seq_lt := fun e he => Nat.lt_succ_of_lt (h.svc_seq_lt e he)
        svc_at_le := fun e he => Nat.le_succ_of_le (h.svc_at_le e he)
        svc_fifo := h.svc_fifo
        svc_cross := h.svc_cross
        svc_queue_fifo := ?_
        svc_queue_cross := ?_ }
    · intro r hr
      rcases mem_playSound_queue hr with hrq | rfl
      · exact Nat.lt_succ_of_lt (h.queue_seq_lt r hrq)
      · exact Nat.lt_succ_self _
    · intro e he r hr _
      rcases mem_playSound_queue hr with hrq | rfl
      · exact h.svc_queue_fifo e he r hrq (by assumption)
      · exact h.svc_seq_lt e he
    · intro e he r hr helow hrhigh
      rcases mem_playSound_queue hr with hrq | rfl
      · exact h.svc_queue_cross e he r hrq helow hrhigh
      · exact h.svc_at_le e he
  | deq =>
    cases hq : s.queue with
    | nil =>
      have hs : schedStep s SchedOp.deq = s := by simp [schedStep, hq]
      rw [hs]; exact h
    | cons f rest =>
      have hford := h.queue_ordered
      rw [hq] at hford
      rcases List.pairwise_cons.mp hford with ⟨hf, hrest⟩
      have hfmem : f ∈ s.queue := by rw [hq]; exact List.mem_cons_self f rest
      have hstep : schedStep s SchedOp.deq =
          { s with queue := rest, serviced := s.serviced ++ [(f, s.nextSeq)] } := by
        simp [schedStep, hq]
      rw [hstep]
      refine
        { queue_ordered := hrest
          queue_seq_lt := fun r hr => h.queue_seq_lt r (by rw [hq]; exact List.mem_cons_of_mem f hr)
          svc_seq_lt := ?_
          svc_at_le := ?_
          svc_fifo := ?_
          svc_cross := ?_
          svc_queue_fifo := ?_
          svc_queue_cross := ?_ }
      · intro e he
        rcases List.mem_append.mp he with hold | hnew
        · exact h.svc_seq_lt e hold
        · rw [List.mem_singleton.mp hnew]
          exact h.queue_seq_lt f hfmem
      · intro e he
        rcases List.mem_append.mp he with hold | hnew
        · exact h.svc_at_le e hold
        · rw [List.mem_singleton.mp hnew]
      · rw [List.pairwise_append]
        refine ⟨h.svc_fifo, by simp, ?_⟩
        intro a ha b hb
        rw [List.mem_singleton] at hb
        subst hb
        exact fun hcl => h.svc_queue_fifo a ha f hfmem hcl
      · rw [List.pairwise_append]
        refine ⟨h.svc_cross, by simp, ?_⟩
        intro a ha b hb
        rw [List.mem_singleton] at hb
        subst hb
        exact fun halow hfhigh => h.svc_queue_cross a ha f hfmem halow hfhigh
      · intro e he r hr
        rcases List.mem_append.mp he with hold | hnew
        · exact h.svc_queue_fifo e hold r (by rw [hq]; exact List.mem_cons_of_mem f hr)
        · rw [List.mem_singleton.mp hnew]
          exact fun hcl => (hf r hr).2 hcl
      · intro e he r hr
        rcases List.mem_append.mp he with hold | hnew
        · exact h.svc_queue_cross e hold r (by rw [hq]; exact List.mem_cons_of_mem f hr)
        · rw [List.mem_singleton.mp hnew]
          intro hflow hrhigh
          have := (hf r hr).1 hrhigh
          rw [hflow] at this
          exact absurd this (by decide)

theorem runSched_inv (ops : List SchedOp) : SchedInv (runSched ops) := by
  suffices h : ∀ s : SchedState, SchedInv s → SchedInv (ops.foldl schedStep s) by
    refine h initSched ?_
    constructor <;> simp [initSched, QueueOrdered]
  induction ops with
  | nil => intro s hs; exact hs
  | cons op ops ih => intro s hs; exact ih _ (schedStep_inv hs op)

theorem insertHighPriority_eq_takeWhile (p : PendingSound)
    (q : List PendingSound) :
    insertHighPriority p q =
      q.takeWhile (·.highPriority) ++ p :: q.dropWhile (·.highPriority) := by
  induction q with
  | nil => rfl
  | cons x xs ih =>
    simp only [insertHighPriority, List.takeWhile_cons, List.dropWhile_cons]
    by_cases hx : x.highPriority = true <;> simp [hx, ih]

theorem dropWhile_low_of_ordered {q : List PendingSound}
    (hord : QueueOrdered q) :
    ∀ a ∈ q.dropWhile (·.highPriority), a.highPriority = false := by
  induction q with
  | nil => simp
  | cons x xs ih =>
    rw [List.dropWhile_cons]
    split
    · exact ih (List.pairwise_cons.mp hord).2
    · rename_i hx
      intro a ha
      rcases List.mem_cons.mp ha with rfl | haxs
      · simpa using hx
      · exact lowPriority_tail hord (by simpa using hx) a haxs

/-- C4: every reachable pending queue is a stable priority partition (high
before low, FIFO within each class); the service log is FIFO within each
class; a high-priority request is serviced after an earlier-submitted
low-priority one only when that low-priority request had already been
dequeued when the high-priority one was submitted; a high-priority enqueue
inserts after the high-priority prefix and, on an ordered queue, before every
low-priority entry; and the worker always dequeues the front of the queue. -/
theorem scheduler_priority_fifo_order :
    (∀ ops : List SchedOp, QueueOrdered (runSched ops).queue) ∧
    (∀ ops : List SchedOp, (runSched ops).serviced.Pairwise fun a b =>
      a.1.highPriority = b.1.highPriority → a.1.seq < b.1.seq) ∧
    (∀ ops : List SchedOp, (runSched ops).serviced.Pairwise fun a b =>
      a.1.highPriority = false → b.1.highPriority = true → a.2 ≤ b.1.seq) ∧
    (∀ (p : PendingSound) (q : List PendingSound),
      insertHighPriority p q =
        q.takeWhile (·.highPriority) ++ p :: q.dropWhile (·.highPriority)) ∧
    (∀ q : List PendingSound, QueueOrdered q →
      ∀ a ∈ q.dropWhile (·.highPriority), a.highPriority = false) ∧
    (∀ (s : SchedState) (f : PendingSound) (rest : List PendingSound),
      s.queue = f :: rest →
      schedStep s SchedOp.deq =
        { s with queue := rest, serviced := s.serviced ++ [(f, s.nextSeq)] }) :=
  ⟨fun ops => (runSched_inv ops).queue_ordered,
    fun ops => (runSched_inv ops).svc_fifo,
    fun ops => (runSched_inv ops).svc_cross,
    insertHighPriority_eq_takeWhile,
    fun _ hord => dropWhile_low_of_ordered hord,
    fun s f rest hq => by simp [schedStep, hq]⟩

/-- C4 witness: a concrete trace; the high-priority request "c" (submitted
third) is inserted between the earlier high-priority "a" and the earlier
low-priority "b". -/
theorem scheduler_priority_fifo_order_witness :
    QueueOrdered (runSched [SchedOp.enq "a" true, SchedOp.enq "b" false,
      SchedOp.enq "c" true, SchedOp.deq]).queue ∧
    insertHighPriority (⟨"c", true, 2⟩ : PendingSound)
        [⟨"a", true, 0⟩, ⟨"b", false, 1⟩] =
      [⟨"a", true, 0⟩, ⟨"c", true, 2⟩, ⟨"b", false, 1⟩] :=
  ⟨scheduler_priority_fifo_order.1 _, by
    rw [scheduler_priority_fifo_order.2.2.2.1]
    decide⟩

/-! ### Active-voice capacity -/

theorem length_eraseFirstLowActive (a : List SoundInstance)
    (h : hasLowActive a = true) :
    (eraseFirstLowActive a).length + 1 = a.length := by
  induction a with
  | nil => simp [hasLowActive] at h
  | cons x xs ih =>
    by_cases hx : x.highPriority
    · have hxs : hasLowActive xs = true := by
        simpa [hasLowActive, hx] using h
      simp [eraseFirstLowActive, hx, ih hxs]
    · simp [eraseFirstLowActive, hx]

theorem filter_high_eraseFirstLowActive (a : List SoundInstance) :
    (eraseFirstLowActive a).filter (·.highPriority) =
      a.filter (·.highPriority) := by
  induction a with
  | nil => rfl
  | cons x xs ih =>
    by_cases hx : x.highPriority
    · simp [eraseFirstLowActive, hx, List.filter_cons, ih]
    · simp [eraseFirstLowActive, hx, List.filter_cons]

theorem length_evictForHighPriority (a : List SoundInstance) :
    (evictForHighPriority a).length = a.length - 1 := by
  unfold evictForHighPriority
  split
  · rename_i h
    have := length_eraseFirstLowActive a h
    omega
  · exact List.length_tail a

theorem workerStep_empty (load : String → Option Nat) (s : PlayerState)
    (hq : s.pendingSounds = []) : workerStep load s = s := by
  simp [workerStep, hq]

theorem workerStep_high_at_capacity (load : String → Option Nat)
    (s : PlayerState) (front : PendingSound) (rest : List PendingSound)
    (c : SoundCache) (ob : Option Nat) (d : Bool)
    (hq : s.pendingSounds = front :: rest)
    (hcap : MAX_CONCURRENT_SOUNDS ≤ s.activeSounds.length)
    (hhp : front.highPriority = true)
    (hget : cacheGet s.soundBuffers load front.path = (c, ob, d)) :
    workerStep load s =
      { s with
        pendingSounds := rest
        soundBuffers := c
        activeSounds :=
          match ob with
          | some _ =>
            evictForHighPriority s.activeSounds ++
              [⟨front.path, front.highPriority, front.seq⟩]
          | none => evictForHighPriority s.activeSounds } := by
  cases ob <;> simp [workerStep, hq, hcap, hhp, hget]

theorem workerStep_low_at_capacity (load : String → Option Nat)
    (s : PlayerState) (front : PendingSound) (rest : List PendingSound)
    (hq : s.pendingSounds = front :: rest)
    (hcap : MAX_CONCURRENT_SOUNDS ≤ s.activeSounds.length)
    (hhp : front.highPriority = false) :
    workerStep load s = { s with pendingSounds := rest } := by
  simp [workerStep, hq, hcap, hhp]

theorem workerStep_below_capacity (load : String → Option Nat)
    (s : PlayerState) (front : PendingSound) (rest : List PendingSound)
    (c : SoundCache) (ob : Option Nat) (d : Bool)
    (hq : s.pendingSounds = front :: rest)
    (hcap : ¬ MAX_CONCURRENT_SOUNDS ≤ s.activeSounds.length)
    (hget : cacheGet s.soundBuffers load front.path = (c, ob, d)) :
    workerStep load s =
      { s with
        pendingSounds := rest
        soundBuffers := c
        activeSounds :=
          match ob with
          | some _ =>
            s.activeSounds ++ [⟨front.path, front.highPriority, front.seq⟩]
          | none => s.activeSounds } := by
  cases ob <;> simp [workerStep, hq, hcap, hget]

theorem workerStep_active_le (load : String → Option Nat) (s : PlayerState)
    (h : s.activeSounds.length ≤ MAX_CONCURRENT_SOUNDS) :
    (workerStep load s).activeSounds.length ≤ MAX_CONCURRENT_SOUNDS := by
  cases hq : s.pendingSounds with
  | nil => rw [workerStep_empty load s hq]; exact h
  | cons front rest =>
    rcases hget : cacheGet s.soundBuffers load front.path with ⟨c, ob, d⟩
    by_cases hcap : MAX_CONCURRENT_SOUNDS ≤ s.activeSounds.length
    · cases hhp : front.highPriority
      · rw [workerStep_low_at_capacity load s front rest hq hcap hhp]
        exact h
      · rw [workerStep_high_at_capacity load s front rest c ob d hq hcap hhp hget]
        have hev := length_evictForHighPriority s.activeSounds
        have hM : MAX_CONCURRENT_SOUNDS = 32 := rfl
        cases ob
        · simp only
          omega
        · simp only [List.length_append, List.length_singleton]
          omega
    · rw [workerStep_below_capacity load s front rest c ob d hq hcap hget]
      cases ob
      · simp only
        exact h
      · simp only [List.length_append, List.length_singleton]
        omega

theorem playerStep_active_le (s : PlayerState) (op : PlayerOp)
    (h : s.activeSounds.length ≤ MAX_CONCURRENT_SOUNDS) :
    (playerStep s op).activeSounds.length ≤ MAX_CONCURRENT_SOUNDS := by
  cases op with
  | play path hp => simpa [playerStep, playerEnqueue] using h
  | worker load => exact workerStep_active_le load s h
  | cleanup finished =>
    simp only [playerStep, cleanupFinishedSounds]
    exact le_trans (List.length_filter_le _ _) h
  | stopAll => simp [playerStep, stopAllSounds]

theorem runPlayer_active_le (ops : List PlayerOp) :
    (runPlayer ops).activeSounds.length ≤ MAX_CONCURRENT_SOUNDS := by
  suffices h : ∀ s : PlayerState,
      s.activeSounds.length ≤ MAX_CONCURRENT_SOUNDS →
      (ops.foldl playerStep s).activeSounds.length ≤ MAX_CONCURRENT_SOUNDS by
    exact h initPlayer (by simp [initPlayer])
  induction ops with
  | nil => intro s hs; exact hs
  | cons op ops ih => intro s hs; exact ih _ (playerStep_active_le s op hs)

/-- C1: over every sequence of `playSound` calls, worker iterations, reaper
passes and `stopAllSounds`, the active-voice count never exceeds
`MAX_CONCURRENT_SOUNDS = 32`.  When the worker dequeues a high-priority
request at capacity and its buffer resolves, exactly one voice is evicted -
the first low-priority voice when one exists (high-priority voices
untouched), otherwise the oldest voice (`activeSounds_.begin()`) - and the
new voice starts, leaving the count unchanged; a low-priority request
dequeued at capacity is dropped with no other state change. -/
theorem activeVoices_bounded_eviction_policy :
    (∀ ops : List PlayerOp,
      (runPlayer ops).activeSounds.length ≤ MAX_CONCURRENT_SOUNDS) ∧
    (∀ (load : String → Option Nat) (s : PlayerState) (front : PendingSound)
        (rest : List PendingSound) (b : Nat),
      s.pendingSounds = front :: rest →
      MAX_CONCURRENT_SOUNDS ≤ s.activeSounds.length →
      front.highPriority = true →
      (cacheGet s.soundBuffers load front.path).2.1 = some b →
      (workerStep load s).activeSounds =
        evictForHighPriority s.activeSounds ++
          [⟨front.path, front.highPriority, front.seq⟩] ∧
      (workerStep load s).activeSounds.length = s.activeSounds.length ∧
      (workerStep load s).pendingSounds = rest) ∧
    (∀ a : List SoundInstance, hasLowActive a = true →
      evictForHighPriority a = eraseFirstLowActive a ∧
      (eraseFirstLowActive a).length + 1 = a.length ∧
      (eraseFirstLowActive a).filter (·.highPriority) =
        a.filter (·.highPriority)) ∧
    (∀ a : List SoundInstance, hasLowActive a = false →
      evictForHighPriority a = a.tail) ∧
    (∀ (load : String → Option Nat) (s : PlayerState) (front : PendingSound)
        (rest : List PendingSound),
      s.pendingSounds = front :: rest →
      MAX_CONCURRENT_SOUNDS ≤ s.activeSounds.length →
      front.highPriority = false →
      workerStep load s = { s with pendingSounds := rest }) := by
  refine ⟨runPlayer_active_le, ?_, ?_, ?_, workerStep_low_at_capacity⟩
  · intro load s front rest b hq hcap hhp hbuf
    rcases hget : cacheGet s.soundBuffers load front.path with ⟨c, ob, d⟩
    rw [hget] at hbuf
    simp only at hbuf
    subst hbuf
    rw [workerStep_high_at_capacity load s front rest c (some b) d hq hcap hhp hget]
    refine ⟨rfl, ?_, rfl⟩
    have hev := length_evictForHighPriority s.activeSounds
    have h32 : (0 : Nat) < MAX_CONCURRENT_SOUNDS := by decide
    simp only [List.length_append, List.length_singleton]
    omega
  · intro a hlow
    exact ⟨by simp [evictForHighPriority, hlow],
      length_eraseFirstLowActive a hlow, filter_high_eraseFirstLowActive a⟩
  · intro a hlow
    simp [evictForHighPriority, hlow]

/-- A decode oracle for the C1 witness: every path decodes to buffer 7. -/
def demoLoad : String → Option Nat := fun _ => some 7

/-- A player state at voice capacity for the C1 witness: thirty-two
low-priority voices and one pending high-priority request. -/
def demoPlayerState : PlayerState :=
  ⟨[⟨"h", true, 99⟩], (List.range 32).map fun i : Nat => ⟨"v", false, i⟩, [], 100⟩

/-- C1 witness: at capacity with thirty-two low-priority voices, dequeuing
the pending high-priority request evicts exactly one voice and starts the
new one, keeping the count at thirty-two. -/
theorem activeVoices_bounded_eviction_policy_witness :
    (workerStep demoLoad demoPlayerState).activeSounds =
      evictForHighPriority demoPlayerState.activeSounds ++
        [⟨"h", true, 99⟩] ∧
    (workerStep demoLoad demoPlayerState).activeSounds.length =
      demoPlayerState.activeSounds.length ∧
    (workerStep demoLoad demoPlayerState).pendingSounds = [] :=
  activeVoices_bounded_eviction_policy.2.1 demoLoad demoPlayerState
    ⟨"h", true, 99⟩ [] 7 rfl (by decide) rfl (by decide)

/-! ### Decoded-buffer cache -/

theorem cacheLookup_cacheSet (c : SoundCache) (path : String) (buf : Nat) :
    cacheLookup (cacheSet c path buf) path = some buf := by
  induction c with
  | nil => simp [cacheSet, cacheLookup]
  | cons e c ih =>
    by_cases he : e.1 = path
    · simp [cacheSet, he, cacheLookup]
    · simp [cacheSet, he, cacheLookup, ih]

theorem cacheLookup_cacheInsert (c : SoundCache) (path : String) (buf : Nat) :
    cacheLookup (cacheInsert c path buf) path = some buf :=
  cacheLookup_cacheSet _ path buf

/-- C6: a cache hit in the worker's buffer resolution returns the cached
buffer with no decode and no cache change; `preloadSound` of a cached path is
a no-op returning `true` with no decode; a successful fresh preload installs
the path in the cache; and whenever the worker's resolution yields a buffer,
that path is cached afterwards - so an immediately following resolution of
the same path is a hit. -/
theorem cache_hit_no_redecode :
    (∀ (c : SoundCache) (load : String → Option Nat) (path : String) (b : Nat),
      cacheLookup c path = some b →
      cacheGet c load path = (c, some b, false)) ∧
    (∀ (c : SoundCache) (load : String → Option Nat) (path : String)
        (hp : Bool) (b : Nat),
      path ≠ "" → cacheLookup c path = some b →
      preloadSound c load path hp = (c, true, false)) ∧
    (∀ (c : SoundCache) (load : String → Option Nat) (path : String)
        (hp : Bool) (b : Nat),
      path ≠ "" → cacheLookup c path = none → load path = some b →
      preloadSound c load path hp = (cacheInsert c path b, true, true) ∧
      cacheLookup (cacheInsert c path b) path = some b) ∧
    (∀ (c : SoundCache) (load : String → Option Nat) (path : String) (b : Nat),
      (cacheGet c load path).2.1 = some b →
      cacheLookup (cacheGet c load path).1 path = some b) := by
  refine ⟨?_, ?_, ?_, ?_⟩
  · intro c load path b h
    simp [cacheGet, h]
  · intro c load path hp b hne h
    simp [preloadSound, hne, h]
  · intro c load path hp b hne hnone hload
    exact ⟨by simp [preloadSound, hne, hnone, hload],
      cacheLookup_cacheInsert c path b⟩
  · intro c load path b h
    unfold cacheGet at h ⊢
    cases hl : cacheLookup c path with
    | some b0 =>
      simp only [hl] at h ⊢
      exact h
    | none =>
      simp only [hl] at h ⊢
      cases hload : load path with
      | some b1 =>
        simp only [hload] at h ⊢
        have hb := Option.some.inj h
        rw [← hb]
        exact cacheLookup_cacheInsert c path b1
      | none =>
        simp only [hload] at h
        exact Option.noConfusion h

/-- C6 witness: a cache holding path "a" is hit without a decode, and a fresh
preload of "b" installs it so that the next resolution of "b" is a hit. -/
theorem cache_hit_no_redecode_witness :
    cacheGet [("a", 1)] (fun _ => some 9) "a" = ([("a", 1)], some 1, false) ∧
    preloadSound [("a", 1)] (fun _ => some 9) "a" true = ([("a", 1)], true, false) ∧
    preloadSound [("a", 1)] (fun _ => some 9) "b" false =
      (cacheInsert [("a", 1)] "b" 9, true, true) :=
  ⟨cache_hit_no_redecode.1 [("a", 1)] (fun _ => some 9) "a" 1 (by decide),
    cache_hit_no_redecode.2.1 [("a", 1)] (fun _ => some 9) "a" true 1
      (by decide) (by decide),
    (cache_hit_no_redecode.2.2.1 [("a", 1)] (fun _ => some 9) "b" false 9
      (by decide) (by decide) rfl).1⟩

/-! ### Key filtering -/

/-- C7: while key filtering is enabled, an event for a filtered key leaves
the hook state untouched - no play request, no preloads, no follower or
history update, no pressed-keys change. -/
theorem filteredKey_fully_excluded :
    ∀ (s : HookState) (sound : Nat → Bool → String) (nCode : Int)
      (wParam vkCode : Nat) (injected : Bool) (now : Nat),
      s.keyFilteringEnabled = true →
      s.filteredKeys.contains vkCode = true →
      keyboardHookProc s sound nCode wParam vkCode injected now =
        ⟨s, [], none⟩ := by
  intro s sound nCode wParam vkCode injected now hen hmem
  have hsp : shouldProcessKey s vkCode = false := by
    have hmem2 : vkCode ∈ s.filteredKeys := by simpa using hmem
    simp [shouldProcessKey, hen, hmem2]
  simp [keyboardHookProc, hsp]

/-- A hook state for the C7 witness: filtering enabled, key 65 filtered. -/
def demoFilteredState : HookState :=
  { initHook with keyFilteringEnabled := true, filteredKeys := [65] }

/-- C7 witness: a key-down of the filtered key 65 changes nothing and emits
nothing. -/
theorem filteredKey_fully_excluded_witness :
    keyboardHookProc demoFilteredState (fun _ _ => "k.wav") 0 0x0100 65 false 5 =
      ⟨demoFilteredState, [], none⟩ :=
  filteredKey_fully_excluded demoFilteredState (fun _ _ => "k.wav") 0 0x0100 65
    false 5 rfl (by decide)

/-! ### Predictive prefetch -/

theorem length_prefetch_flatMap (sound : Nat → Bool → String) (hp : Bool)
    (ks : List Nat) :
    (ks.flatMap fun k =>
      (if sound k true ≠ "" then [(sound k true, hp)] else []) ++
      (if sound k false ≠ "" then [(sound k false, hp)] else [])).length ≤
      2 * ks.length := by
  induction ks with
  | nil => simp
  | cons k ks ih =>
    rw [List.flatMap_cons, List.length_append]
    have hblock :
        ((if sound k true ≠ "" then [(sound k true, hp)] else []) ++
          (if sound k false ≠ "" then [(sound k false, hp)] else [])).length ≤ 2 := by
      rw [List.length_append]
      split <;> split <;> simp
    simp only [List.length_cons]
    omega

/-- C8: `setLatencyOptimization` clamps the level to 0-3; with level at most
0 the prefetch emits nothing; when the follower set of the key is known, the
prefetch emits at most two preloads (down and up) per candidate for at most
`level` candidates - every emitted request names a sound of one of the first
`level` followers and is high-priority exactly when the level is at least 3;
and a key with no follower set prefetches nothing. -/
theorem predictivePrefetch_level_bound :
    (∀ (s : HookState) (level : Int),
      0 ≤ (setLatencyOptimization s level).latencyOptimizationLevel ∧
      (setLatencyOptimization s level).latencyOptimizationLevel ≤ 3) ∧
    (∀ (level : Int) (m : List (Nat × List Nat)) (sound : Nat → Bool → String)
        (vk : Nat), level ≤ 0 →
      preloadPredictedKeys level m sound vk = []) ∧
    (∀ (level : Int) (m : List (Nat × List Nat)) (sound : Nat → Bool → String)
        (vk : Nat) (fs : List Nat), assocFind m vk = some fs →
      (preloadPredictedKeys level m sound vk).length ≤ 2 * level.toNat ∧
      ∀ r ∈ preloadPredictedKeys level m sound vk,
        r.2 = decide (3 ≤ level) ∧
        ∃ k ∈ fs.take level.toNat, r.1 = sound k true ∨ r.1 = sound k false) ∧
    (∀ (level : Int) (m : List (Nat × List Nat)) (sound : Nat → Bool → String)
        (vk : Nat), assocFind m vk = none →
      preloadPredictedKeys level m sound vk = []) := by
  refine ⟨?_, ?_, ?_, ?_⟩
  · intro s level
    have hlevel : (setLatencyOptimization s level).latencyOptimizationLevel =
        max 0 (min level 3) := by
      simp only [setLatencyOptimization]
      split
      · rfl
      · split <;> rfl
    rw [hlevel]
    exact ⟨le_max_left 0 _, max_le (by decide) (min_le_right level 3)⟩
  · intro level m sound vk hle
    have hlt : level < 1 := by omega
    simp [preloadPredictedKeys, hlt]
  · intro level m sound vk fs hfind
    by_cases hlt : level < 1
    · simp [preloadPredictedKeys, hlt]
    · constructor
      · simp only [preloadPredictedKeys, hlt, if_false, hfind]
        calc ((fs.take level.toNat).flatMap _).length ≤
            2 * (fs.take level.toNat).length := length_prefetch_flatMap sound _ _
          _ ≤ 2 * level.toNat := by
            have := List.length_take_le level.toNat fs
            omega
      · intro r hr
        simp only [preloadPredictedKeys, hlt, if_false, hfind] at hr
        rcases List.mem_flatMap.mp hr with ⟨k, hk, hrk⟩
        rcases List.mem_append.mp hrk with hdown | hup
        · split at hdown
          · rw [List.mem_singleton.mp hdown]
            exact ⟨rfl, k, hk, Or.inl rfl⟩
          · exact absurd hdown (List.not_mem_nil r)
        · split at hup
          · rw [List.mem_singleton.mp hup]
            exact ⟨rfl, k, hk, Or.inr rfl⟩
          · exact absurd hup (List.not_mem_nil r)
  · intro level m sound vk hfind
    unfold preloadPredictedKeys
    split
    · rfl
    · rw [hfind]

/-- C8 witness: at clamped level 2 the prefetch for key 65 with followers
[66, 67, 68] emits the down and up sounds of the first two followers only,
all low-priority; at level 3 they are high-priority. -/
theorem predictivePrefetch_level_bound_witness :
    (preloadPredictedKeys 2 [(65, [66, 67, 68])]
        (fun k d => toString k ++ (if d then "D" else "U")) 65).length ≤ 2 * 2 ∧
    preloadPredictedKeys 2 [(65, [66, 67, 68])]
        (fun k d => toString k ++ (if d then "D" else "U")) 65 =
      [("66D", false), ("66U", false), ("67D", false), ("67U", false)] ∧
    preloadPredictedKeys 0 [(65, [66, 67, 68])]
        (fun k d => toString k ++ (if d then "D" else "U")) 65 = [] :=
  ⟨by
      have h := (predictivePrefetch_level_bound.2.2.1 2 [(65, [66, 67, 68])]
        (fun k d => toString k ++ (if d then "D" else "U")) 65 [66, 67, 68] rfl).1
      simpa using h,
    by decide,
    predictivePrefetch_level_bound.2.1 0 [(65, [66, 67, 68])]
      (fun k d => toString k ++ (if d then "D" else "U")) 65 (by decide)⟩

/-! ### Hook-manager singleton -/

/-- C9 counterexample: with an instance already live (pointer at id 0),
constructing a second instance does not fail - it returns success, prints the
warning, and overwrites the process-wide pointer with the new id 1. -/
theorem secondConstruction_not_failing :
    constructHookManager (constructHookManager none 0).1 1 = (some 1, true, true) ∧
    (constructHookManager (constructHookManager none 0).1 1).1 ≠ some 0 := by
  refine ⟨rfl, ?_⟩
  intro h
  exact absurd (Option.some.inj h) (by decide)

/-- C9 (amended): constructing a `KeyboardHookManager` while one already
exists succeeds, logs the multiple-instances warning, and overwrites the
process-wide singleton pointer with the new instance. -/
theorem secondConstruction_warns_and_overwrites :
    ∀ (instancePtr : Option Nat) (newId : Nat), instancePtr.isSome = true →
      constructHookManager instancePtr newId = (some newId, true, true) := by
  intro g newId hg
  simp [constructHookManager, hg]

/-- C9 witness: constructing instance 1 while instance 0 is live. -/
theorem secondConstruction_warns_and_overwrites_witness :
    constructHookManager (some 0) 1 = (some 1, true, true) :=
  secondConstruction_warns_and_overwrites (some 0) 1 rfl

/-! ### Debounce -/

/-- Number of down-sound play requests submitted over a sequence of accepted
key-down events of one key at the given instants. -/
def countDownTriggers (s : HookState) (sound : Nat → Bool → String)
    (vk : Nat) : List Nat → Nat
  | [] => 0
  | t :: ts =>
    (if (handleKeyDown s sound vk t).play.isSome then 1 else 0) +
      countDownTriggers (handleKeyDown s sound vk t).state sound vk ts

/-- Every consecutive pair of instants is closer than `d` milliseconds. -/
def gapsBelow (d : Nat) : List Nat → Bool
  | [] => true
  | [_] => true
  | a :: b :: ts => decide (b - a < d) && gapsBelow d (b :: ts)

theorem assocFind_assocSet {β : Type} (m : List (Nat × β)) (k : Nat) (v : β) :
    assocFind (assocSet m k v) k = some v := by
  induction m with
  | nil => simp [assocSet, assocFind]
  | cons e m ih =>
    by_cases he : e.1 = k
    · simp [assocSet, he, assocFind]
    · simp [assocSet, he, assocFind, ih]

theorem handleKeyDown_timestamp (s : HookState) (sound : Nat → Bool → String)
    (vk now : Nat) :
    assocFind (handleKeyDown s sound vk now).state.keyTimestamps vk =
      some now := by
  simp only [handleKeyDown]
  exact assocFind_assocSet s.keyTimestamps vk now

theorem handleKeyDown_suppressed (s : HookState) (sound : Nat → Bool → String)
    (vk now t : Nat) (hts : assocFind s.keyTimestamps vk = some t)
    (hlt : now - t < KEY_PROCESSING_INTERVAL) :
    (handleKeyDown s sound vk now).play = none := by
  simp [handleKeyDown, hts, hlt]

theorem countDownTriggers_suppressed_run (sound : Nat → Bool → String)
    (vk : Nat) :
    ∀ (ts : List Nat) (s : HookState) (t0 : Nat),
      assocFind s.keyTimestamps vk = some t0 →
      gapsBelow KEY_PROCESSING_INTERVAL (t0 :: ts) = true →
      countDownTriggers s sound vk ts = 0 := by
  intro ts
  induction ts with
  | nil => intro s t0 _ _; rfl
  | cons t1 rest ih =>
    intro s t0 hts hgap
    have hg : (t1 - t0 < KEY_PROCESSING_INTERVAL) ∧
        gapsBelow KEY_PROCESSING_INTERVAL (t1 :: rest) = true := by
      simpa [gapsBelow] using hgap
    unfold countDownTriggers
    rw [handleKeyDown_suppressed s sound vk t1 t0 hts hg.1]
    simp only [Option.isSome_none, Bool.false_eq_true, if_false, Nat.zero_add]
    exact ih (handleKeyDown s sound vk t1).state t1
      (handleKeyDown_timestamp s sound vk t1) hg.2

theorem countDownTriggers_le_one (s : HookState) (sound : Nat → Bool → String)
    (vk : Nat) (ts : List Nat)
    (hgap : gapsBelow KEY_PROCESSING_INTERVAL ts = true) :
    countDownTriggers s sound vk ts ≤ 1 := by
  cases ts with
  | nil => simp [countDownTriggers]
  | cons t0 rest =>
    unfold countDownTriggers
    rw [countDownTriggers_suppressed_run sound vk rest
      (handleKeyDown s sound vk t0).state t0
      (handleKeyDown_timestamp s sound vk t0) hgap]
    split <;> simp

/-- C5: for any sequence of accepted key-downs of one key whose consecutive
instants are each less than the 25 ms debounce interval apart, at most one
down sound is submitted; and a down suppressed by the debounce still updates
the key's timestamp, the key-history ring, and the follower map exactly as
an accepted down would (the learning updates are conditional only on the
optimization level and the non-empty history, never on the debounce). -/
theorem debounce_at_most_one_trigger :
    (∀ (s : HookState) (sound : Nat → Bool → String) (vk : Nat)
        (ts : List Nat),
      gapsBelow KEY_PROCESSING_INTERVAL ts = true →
      countDownTriggers s sound vk ts ≤ 1) ∧
    (∀ (s : HookState) (sound : Nat → Bool → String) (vk now t : Nat),
      assocFind s.keyTimestamps vk = some t →
      now - t < KEY_PROCESSING_INTERVAL →
      (handleKeyDown s sound vk now).play = none ∧
      assocFind (handleKeyDown s sound vk now).state.keyTimestamps vk =
        some now ∧
      (0 < s.latencyOptimizationLevel →
        (handleKeyDown s sound vk now).state.recentKeys =
          trimFront KEY_HISTORY_LENGTH (s.recentKeys ++ [vk])) ∧
      (0 < s.latencyOptimizationLevel → s.recentKeys ≠ [] →
        (handleKeyDown s sound vk now).state.keyFollowers =
          followersInsert s.keyFollowers (s.recentKeys.getLastD 0) vk)) := by
  refine ⟨countDownTriggers_le_one, ?_⟩
  intro s sound vk now t hts hlt
  refine ⟨handleKeyDown_suppressed s sound vk now t hts hlt,
    handleKeyDown_timestamp s sound vk now, ?_, ?_⟩
  · intro hlevel
    simp [handleKeyDown, hlevel]
  · intro hlevel hne
    simp [handleKeyDown, hlevel, hne]

/-- C5 witness: three downs of key 65 at 100, 110 and 120 ms produce a single
play request; a suppressed down from a state whose key-65 timestamp is 100 ms
old still rewrites the timestamp, the ring and the follower map. -/
theorem debounce_at_most_one_trigger_witness :
    countDownTriggers initHook (fun _ _ => "k.wav") 65 [100, 110, 120] ≤ 1 ∧
    (handleKeyDown
        { initHook with keyTimestamps := [(65, 100)], recentKeys := [66] }
        (fun _ _ => "k.wav") 65 110).play = none ∧
    assocFind (handleKeyDown
        { initHook with keyTimestamps := [(65, 100)], recentKeys := [66] }
        (fun _ _ => "k.wav") 65 110).state.keyTimestamps 65 = some 110 :=
  ⟨debounce_at_most_one_trigger.1 initHook (fun _ _ => "k.wav") 65
      [100, 110, 120] (by decide),
    (debounce_at_most_one_trigger.2
      { initHook with keyTimestamps := [(65, 100)], recentKeys := [66] }
      (fun _ _ => "k.wav") 65 110 100 (by decide) (by decide)).1,
    (debounce_at_most_one_trigger.2
      { initHook with keyTimestamps := [(65, 100)], recentKeys := [66] }
      (fun _ _ => "k.wav") 65 110 100 (by decide) (by decide)).2.1⟩

end KeyboardSounds
